import Mathlib

/-!
Verification of the transcript-batching utilities.

This file gives a shallow embedding of the two Python source files
`src/utils/txt_to_batches.py` (the Converter) and `src/utils/verify_batches.py`
(the Verifier), and proves or refutes the frozen claims about them.

Modelling conventions:
* Python strings are `List Char`; Python ints that arise from filename parsing
  are `Nat` (the regex only yields nonnegative values).  The Verifier
  aggregates raw JSON values (`RawEntry`): only when every aggregated episode
  number is a JSON integer does the analysis run to completion (`VEntry`);
  otherwise the sort of line 50 or the `max_file + 1` of line 66 raises an
  uncaught `TypeError`, modelled as an explicit crash outcome.
* The filesystem is an explicit environment: a directory listing is
  `Option (List ...)` (`none` models `FileNotFoundError` from `os.listdir`),
  a file read is `Except PyErr (List Char)`, and success of each batch write
  is a Boolean oracle indexed by the 1-based batch number.
* JSON content is modelled at the value level: `json.dump` followed by
  `json.load` transports the value unchanged, so a batch file's content is the
  parsed value (or a parse/read error).  Python exceptions are the explicit
  `PyErr` error values of `Except`.
-/

/-- A Python exception, as an explicit value. -/
inductive PyErr where
  /-- `ValueError`, e.g. from `range(0, n, 0)` when the step is zero. -/
  | valueError : PyErr
  /-- `FileNotFoundError` and other `OSError`s. -/
  | ioError : PyErr
  /-- any other exception (e.g. `json.JSONDecodeError`, `KeyError`), with a message. -/
  | exc : List Char → PyErr
deriving DecidableEq, Repr

/-! ## Filename parsing (`extract_data_from_filename`, txt_to_batches.py lines 23-32) -/

/-- The characters matched by Python's `\s` (and stripped by `str.strip`),
restricted to ASCII, which is all the source's inputs use. -/
def isPySpace (c : Char) : Bool :=
  c = ' ' || c = '\t' || c = '\n' || c = '\r' || c = '\x0b' || c = '\x0c'

/-- Value of a run of decimal digits, as Python's `int` builds it. -/
def natOfDigits (ds : List Char) : Nat :=
  ds.foldl (fun n c => 10 * n + (c.toNat - '0'.toNat)) 0

/-- `re.match(r"(\d+)-", filename)`: a maximal leading run of one or more
digits immediately followed by a hyphen.  (The regex engine's backtracking is
irrelevant here: a digit can never match the literal `-`, so only the maximal
digit run can succeed.)  Returns the parsed value of the digit run. -/
def matchLeadingNumber (s : List Char) : Option Nat :=
  let ds := s.takeWhile (·.isDigit)
  if ds.isEmpty then none
  else
    match s.drop ds.length with
    | '-' :: _ => some (natOfDigits ds)
    | _ => none

/-- `re.match(r"\d+-#\d+\s*-\s*(.*)", title)`: digits, `-`, `#`, digits,
optional whitespace, `-`, optional whitespace, then the captured group.
`.` does not match a newline in Python, so the greedy `(.*)` captures the
remaining characters up to the first newline.  Returns the captured group. -/
def matchTitlePattern (s : List Char) : Option (List Char) :=
  let d1 := s.takeWhile (·.isDigit)
  if d1.isEmpty then none
  else
    match s.drop d1.length with
    | '-' :: '#' :: rest =>
      let d2 := rest.takeWhile (·.isDigit)
      if d2.isEmpty then none
      else
        match (rest.drop d2.length).dropWhile isPySpace with
        | '-' :: rest2 =>
          some (((rest2.dropWhile isPySpace).takeWhile (fun c => c ≠ '\n')))
        | _ => none
    | _ => none

/-- Python's `str.strip()`: drop whitespace from both ends. -/
def pyStrip (s : List Char) : List Char :=
  (((s.dropWhile isPySpace).reverse.dropWhile isPySpace).reverse)

/-- `filename[:-4]`: all but the last four characters (empty if at most four). -/
def stripLast4 (s : List Char) : List Char :=
  s.take (s.length - 4)

/-- `extract_data_from_filename(filename, index)` (txt_to_batches.py lines 23-32).
Returns `(file_number, title)`.  `index = none` models the Python default
`index=None`, in which case a filename without a leading `<digits>-` yields 0. -/
def extract_data_from_filename (filename : List Char) (index : Option Nat) :
    Nat × List Char :=
  let file_number :=
    match matchLeadingNumber filename with
    | some n => n
    | none => match index with
      | some i => i
      | none => 0
  let title := stripLast4 filename
  let title :=
    match matchTitlePattern title with
    | some captured => pyStrip captured
    | none => title
  (file_number, title)

/-! ## The Converter (`process_files`, txt_to_batches.py lines 35-88) -/

/-- One record built by the Converter (the dict at lines 60-67). -/
structure FileRecord where
  episode_number : Nat
  title : List Char
  transcript : List Char
  filename : List Char
deriving DecidableEq, Repr

/-- `f.lower().endswith(".txt")` (line 39): the per-character lowercasing of
`Char.toLower` agrees with Python on the ASCII filenames in scope. -/
def endsWithTxt (f : List Char) : Bool :=
  List.isPrefixOf (['t', 'x', 't', '.']) ((f.map Char.toLower).reverse)

/-- The Converter's filesystem environment. -/
structure ConvEnv where
  /-- `os.listdir(input_dir)`: `none` models `FileNotFoundError` (caught at line 40). -/
  listing : Option (List (List Char))
  /-- reading a file's text content; `Except.error` models the caught exception at line 68. -/
  readFile : List Char → Except PyErr (List Char)
  /-- whether writing batch number `k` succeeds; `false` models the caught exception at line 82. -/
  writeOk : Nat → Bool

/-- Insert `a` into a sorted list, before the first element `b` with
`le a b = true`; for equal keys `a` therefore lands in front, which is what
stability of Python's `list.sort` demands for an element originating earlier. -/
def insertLe (le : α → α → Bool) (a : α) : List α → List α
  | [] => [a]
  | b :: l => if le a b then a :: b :: l else b :: insertLe le a l

/-- Stable insertion sort; models Python's stable `list.sort(key=...)`
(the sorted result is uniquely determined by stability and sortedness,
so any stable sorting algorithm is an exact model). -/
def sortLe (le : α → α → Bool) : List α → List α
  | [] => []
  | a :: l => insertLe le a (sortLe le l)

/-- The tuples of `numbered_files` (lines 44-47): `(file_number, filename, original_index)`. -/
abbrev NumberedFile := Nat × List Char × Nat

/-- Comparison key of line 49: `key=lambda x: x[0]`. -/
def keyLe (x y : NumberedFile) : Bool :=
  decide (x.1 ≤ y.1)

/-- Line 39: the `.txt` filenames, in listing order. -/
def txtNames (names : List (List Char)) : List (List Char) :=
  names.filter endsWithTxt

/-- Lines 44-47: pair each `.txt` filename with its parsed number and
its position in the listing (the fallback index). -/
def numberedFiles (names : List (List Char)) : List NumberedFile :=
  (txtNames names).enum.map
    (fun p => ((extract_data_from_filename p.2 (some p.1)).1, p.2, p.1))

/-- Line 49: `numbered_files.sort(key=lambda x: x[0])`. -/
def sortedNumbered (names : List (List Char)) : List NumberedFile :=
  sortLe keyLe (numberedFiles names)

/-- Lines 53-71, one iteration: read one file and build its record,
or `none` when reading raised (the record is skipped). -/
def readOne (rd : List Char → Except PyErr (List Char)) (x : NumberedFile) :
    Option FileRecord :=
  match rd x.2.1 with
  | .ok transcript =>
    let et := extract_data_from_filename x.2.1 (some x.2.2)
    some ⟨et.1, et.2, transcript, x.2.1⟩
  | .error _ => none

/-- Lines 51-71: the `all_files` list — records of the successfully read
files, in sorted order. -/
def allFilesOf (rd : List Char → Except PyErr (List Char))
    (names : List (List Char)) : List FileRecord :=
  (sortedNumbered names).filterMap (readOne rd)

/-- Line 70: how many reads raised. -/
def errorCountOf (rd : List Char → Except PyErr (List Char))
    (names : List (List Char)) : Nat :=
  (sortedNumbered names).countP (fun x => (readOne rd x).isNone)

/-- Structural worker for `chunksGo`: the first argument is fuel, which any
value at least `l.length` saturates (structural recursion keeps the
definition computable by the kernel). -/
def chunksGoF (B : Nat) : Nat → List α → List (List α)
  | 0, _ => []
  | _ + 1, [] => []
  | fuel + 1, a :: l => (a :: l.take (B - 1)) :: chunksGoF B fuel (l.drop (B - 1))

/-- The slices `all_files[i : i + B]` for `i = 0, B, 2B, ...` (lines 74-75),
assuming `1 ≤ B` (callers gate `B = 0` through `pyChunks`). -/
def chunksGo (B : Nat) (l : List α) : List (List α) :=
  chunksGoF B l.length l

/-- `for i in range(0, len(l), B)` slicing (lines 74-75): `range` raises
`ValueError` when the step `B` is zero, even on an empty list. -/
def pyChunks (B : Nat) (l : List α) : Except PyErr (List (List α)) :=
  if B = 0 then .error .valueError else .ok (chunksGo B l)

/-- What a run of `process_files` produced. -/
structure ConvResult where
  /-- the batch files present in the output directory: `(batch number, records)`,
  in creation order; a batch whose write raised is absent. -/
  written : List (Nat × List FileRecord)
  /-- the returned `batch_count` (incremented per chunk at line 76, before the
  write is attempted). -/
  returnValue : Nat
  /-- `len(all_files)` (line 85). -/
  processed : Nat
  /-- `error_count` (line 86). -/
  errorCount : Nat
deriving DecidableEq, Repr

/-- `process_files(input_dir, output_dir, batch_size)` (lines 35-88).
An `Except.error` is an exception escaping the function. -/
def process_files (env : ConvEnv) (batch_size : Nat) : Except PyErr ConvResult :=
  match env.listing with
  | none => .ok ⟨[], 0, 0, 0⟩
  | some names =>
    let af := allFilesOf env.readFile names
    match pyChunks batch_size af with
    | .error e => .error e
    | .ok bs =>
      .ok ⟨(bs.enumFrom 1).filter (fun p => env.writeOk p.1),
           bs.length, af.length, errorCountOf env.readFile names⟩

/-! ## The Verifier (`verify_batches`, verify_batches.py lines 20-84) -/

/-- A JSON value as it appears in the fields of a batch record: an integer or
a string, the universe the Converter writes and hand-made batches in scope
may carry (other JSON types behave like the string case at every point the
Verifier touches a value: subscripts succeed, int-comparison raises). -/
inductive JValue where
  | jint : Int → JValue
  | jstr : List Char → JValue
deriving DecidableEq, Repr

/-- A JSON object: an association list of fields, in insertion order
(a parsed JSON object has pairwise-distinct keys). -/
abbrev JObj := List (List Char × JValue)

/-- Key lookup in a JSON object (`file_entry["..."]`); `none` is a `KeyError`. -/
def jLookup (key : List Char) : JObj → Option JValue
  | [] => none
  | (k, v) :: rest => if k = key then some v else jLookup key rest

def epKey : List Char := "episode_number".toList
def titleKey : List Char := "title".toList
def fnKey : List Char := "filename".toList

/-- One aggregated triple `(episode_number, title, filename)` exactly as the
subscripts of lines 39-41 hand it over: the raw JSON values, whatever their
types — the code checks nothing about them at this point. -/
abbrev RawEntry := JValue × JValue × JValue

/-- An aggregated triple whose episode number is a JSON integer, the form the
later analysis stages (sort, min/max, range) require to run without raising. -/
abbrev VEntry := Int × JValue × JValue

/-- Extract the three keys from one record (lines 39-41); `none` models the
`KeyError` when a key is absent.  A record with all three keys present is
accepted whatever the types of its values, as the subscripts raise nothing
for present keys. -/
def extractEntry (o : JObj) : Option RawEntry :=
  match jLookup epKey o, jLookup titleKey o, jLookup fnKey o with
  | some a, some b, some c => some (a, b, c)
  | _, _, _ => none

/-- Lines 36-43: entries are appended one by one inside the `try`, so a record
that raises `KeyError` keeps the entries before it and drops the rest of the file. -/
def validEntries : List JObj → List RawEntry
  | [] => []
  | o :: os =>
    match extractEntry o with
    | some e => e :: validEntries os
    | none => []

/-- Lines 32-45: the entries a single batch file contributes — nothing when
opening or `json.load` raised, otherwise the valid front of its records. -/
def fileEntries : Except PyErr (List JObj) → List RawEntry
  | .error _ => []
  | .ok objs => validEntries objs

/-- `f.endswith(".json")` (line 22; case-sensitive, unlike the Converter). -/
def isJsonName (f : List Char) : Bool :=
  List.isPrefixOf (['n', 'o', 's', 'j', '.']) f.reverse

/-- Lexicographic order on strings by code point, as Python compares `str`. -/
def lexLe : List Char → List Char → Bool
  | [], _ => true
  | _ :: _, [] => false
  | a :: as, b :: bs => if a < b then true else if b < a then false else lexLe as bs

/-- Comparison key of line 50: `key=lambda x: x[0]`. -/
def entryLe (a b : VEntry) : Bool :=
  decide (a.1 ≤ b.1)

/-- The keys of `dup_dict` (lines 58-60) in insertion order: each value of the
traversed list at its first occurrence. -/
def firstOccs : List Int → List Int
  | [] => []
  | n :: ns => n :: (firstOccs ns).filter (fun m => decide (m ≠ n))

/-- Line 61: the duplicated numbers, i.e. the `dup_dict` keys whose frequency
in the traversed list exceeds one, in `dup_dict` insertion order. -/
def dupKeys (l : List Int) : List Int :=
  (firstOccs l).filter (fun k => decide (1 < l.count k))

/-- The gap report of lines 63-76. -/
structure GapInfo where
  /-- `min(file_nums)`. -/
  lo : Int
  /-- `max(file_nums)`. -/
  hi : Int
  /-- `sorted(list(missing))`: the integers of `[lo, hi]` absent from the
  aggregated numbers, ascending (the canonical listing of the set `missing`;
  it is empty exactly when the code prints the full-coverage success line). -/
  missing : List Int
  /-- the explicitly printed missing-number list, present iff `missing` is
  nonempty and has fewer than 50 elements (lines 73-74). -/
  printedMissing : Option (List Int)
deriving DecidableEq, Repr

/-- Lines 63-76.  `none` when there are no aggregated entries (`if files:`). -/
def gapOf : List Int → Option GapInfo
  | [] => none
  | n :: ns =>
    let lo := ns.foldl min n
    let hi := ns.foldl max n
    let missing :=
      ((List.range (hi + 1 - lo).toNat).map (fun i : Nat => lo + (i : Int))).filter
        (fun k => decide (k ∉ n :: ns))
    some ⟨lo, hi, missing,
          if missing ≠ [] ∧ missing.length < 50 then some missing else none⟩

/-- The Verifier's summary (everything lines 28-84 print, structured). -/
structure VerifyReport where
  /-- `len(files)` (line 47). -/
  totalFiles : Nat
  /-- the aggregated entries after the sort of line 50. -/
  entriesSorted : List VEntry
  /-- `duplicates` (line 54): raw entries minus distinct episode numbers. -/
  dupCount : Nat
  /-- the duplicated-numbers list of line 61, printed only when `dupCount > 0`. -/
  dupList : Option (List Int)
  /-- the gap analysis of lines 63-76, absent when no entries aggregated. -/
  gap : Option GapInfo
  /-- lines 78-80: the first five `(number, title)` pairs. -/
  firstFive : List (Int × JValue)
  /-- lines 82-84: the last five `(number, title)` pairs. -/
  lastFive : List (Int × JValue)
deriving DecidableEq, Repr

/-- How a run of `verify_batches` ends. -/
inductive VerifyOutcome where
  /-- `os.listdir` raised `FileNotFoundError` (line 22 is outside any `try`,
  so the exception propagates to the caller). -/
  | dirMissing : VerifyOutcome
  /-- the early `return` of line 26: no `.json` files. -/
  | noBatchFiles : VerifyOutcome
  /-- an uncaught `TypeError` after aggregation, raised when some aggregated
  `episode_number` is not an integer: by `files.sort` (line 50) when an
  integer and a non-integer key must be compared, else by `max_file + 1`
  (line 66, reachable since a non-integer key means `files` is non-empty);
  both sites are outside every `try`, so the run aborts mid-output. -/
  | typeError : VerifyOutcome
  /-- the run completed and printed this summary. -/
  | report : VerifyReport → VerifyOutcome
deriving DecidableEq, Repr

/-- The Verifier's filesystem environment: the batch directory's entries as
`(name, parsed JSON content or error)`, or `none` if the directory is missing. -/
structure VerifyEnv where
  listing : Option (List (List Char × Except PyErr (List JObj)))

/-- Line 22: `sorted([f for f in os.listdir(batch_dir) if f.endswith(".json")])`,
carrying each file's content along with its name. -/
def batchFilesOf (listing : List (List Char × Except PyErr (List JObj))) :
    List (List Char × Except PyErr (List JObj)) :=
  sortLe (fun a b => lexLe a.1 b.1) (listing.filter (fun p => isJsonName p.1))

/-- Lines 30-45: the aggregated `files` list, given the directory entries —
the per-file contributions of the `.json` files, in sorted name order. -/
def aggFrom (listing : List (List Char × Except PyErr (List JObj))) : List RawEntry :=
  ((batchFilesOf listing).map (fun p => fileEntries p.2)).flatten

/-- The typed view of the aggregation the analysis stages need: `some` with
the integer episode numbers when every aggregated key is a JSON integer,
`none` when any entry carries a non-integer episode number — the condition
under which lines 50-66 raise an uncaught `TypeError`. -/
def intKeysOf : List RawEntry → Option (List VEntry)
  | [] => some []
  | (JValue.jint n, t, f) :: rest =>
    match intKeysOf rest with
    | some typed => some ((n, t, f) :: typed)
    | none => none
  | (JValue.jstr _, _, _) :: _ => none

/-- Line 52: `file_nums`, the episode numbers of the aggregated entries after
the sort of line 50. -/
def fileNums (files : List VEntry) : List Int :=
  (sortLe entryLe files).map (fun e => e.1)

/-- Lines 47-84: the summary computed from the aggregated `files` list. -/
def mkReport (files : List VEntry) : VerifyReport :=
  let sortedE := sortLe entryLe files
  let dups := files.length - (firstOccs (fileNums files)).length
  { totalFiles := files.length
    entriesSorted := sortedE
    dupCount := dups
    dupList := if 0 < dups then some (dupKeys (fileNums files)) else none
    gap := gapOf (fileNums files)
    firstFive := (sortedE.take 5).map (fun e => (e.1, e.2.1))
    lastFive := (sortedE.drop (sortedE.length - 5)).map (fun e => (e.1, e.2.1)) }

/-- Lines 47-84, after the aggregation loop: with every episode number an
integer the analysis runs to completion and prints the summary; with any
non-integer episode number the run dies on an uncaught `TypeError` (the sort
of line 50 for mixed key types, `max_file + 1` of line 66 for uniformly
non-integer keys — a non-integer key guarantees `files` is non-empty, so
line 66 is reached whenever the sort happens to succeed). -/
def analyzeFiles (raw : List RawEntry) : VerifyOutcome :=
  match intKeysOf raw with
  | some typed => .report (mkReport typed)
  | none => .typeError

/-- `verify_batches(batch_dir)` (lines 20-84). -/
def verify_batches (env : VerifyEnv) : VerifyOutcome :=
  match env.listing with
  | none => .dirMissing
  | some listing =>
    if (batchFilesOf listing).isEmpty then .noBatchFiles
    else analyzeFiles (aggFrom listing)

/-! ## General lemmas about the sorting and chunking models -/

theorem insertLe_perm (le : α → α → Bool) (a : α) :
    ∀ l : List α, List.Perm (insertLe le a l) (a :: l)
  | [] => List.Perm.refl _
  | b :: l => by
    simp only [insertLe]
    by_cases h : le a b
    · simp [h]
    · simp only [h, if_neg]
      exact ((insertLe_perm le a l).cons b).trans (List.Perm.swap a b l)

theorem sortLe_perm (le : α → α → Bool) : ∀ l : List α, List.Perm (sortLe le l) l
  | [] => List.Perm.refl _
  | a :: l => (insertLe_perm le a (sortLe le l)).trans ((sortLe_perm le l).cons a)

theorem pairwise_insertLe {le : α → α → Bool}
    (htot : ∀ a b, le a b = false → le b a = true)
    (htr : ∀ a b c, le a b = true → le b c = true → le a c = true) (a : α) :
    ∀ l : List α, l.Pairwise (fun x y => le x y = true) →
      (insertLe le a l).Pairwise (fun x y => le x y = true)
  | [], _ => by simp [insertLe]
  | b :: l, h => by
    obtain ⟨h1, h2⟩ := List.pairwise_cons.1 h
    by_cases hab : le a b
    · simp only [insertLe, hab, if_pos, List.pairwise_cons]
      refine ⟨fun x hx => ?_, h1, h2⟩
      rcases List.mem_cons.1 hx with rfl | hx
      · exact hab
      · exact htr a b x hab (h1 x hx)
    · simp only [insertLe, hab, if_neg, Bool.false_eq_true, not_false_iff,
        List.pairwise_cons]
      refine ⟨fun x hx => ?_, pairwise_insertLe htot htr a l h2⟩
      rcases List.mem_cons.1 ((insertLe_perm le a l).mem_iff.1 hx) with h3 | hx
      · rw [h3]
        exact htot a b (by simpa using hab)
      · exact h1 x hx

theorem pairwise_sortLe {le : α → α → Bool}
    (htot : ∀ a b, le a b = false → le b a = true)
    (htr : ∀ a b c, le a b = true → le b c = true → le a c = true) :
    ∀ l : List α, (sortLe le l).Pairwise (fun x y => le x y = true)
  | [] => List.Pairwise.nil
  | a :: l => pairwise_insertLe htot htr a _ (pairwise_sortLe htot htr l)

theorem chunksGoF_fuel (B : Nat) :
    ∀ (f1 f2 : Nat) (l : List α), l.length ≤ f1 → l.length ≤ f2 →
      chunksGoF B f1 l = chunksGoF B f2 l
  | 0, 0, _, _, _ => rfl
  | 0, _ + 1, [], _, _ => rfl
  | 0, _ + 1, _ :: _, h1, _ => by simp at h1
  | _ + 1, 0, [], _, _ => rfl
  | _ + 1, 0, _ :: _, _, h2 => by simp at h2
  | _ + 1, _ + 1, [], _, _ => rfl
  | f1 + 1, f2 + 1, a :: l, h1, h2 => by
    simp only [chunksGoF]
    refine congrArg _ (chunksGoF_fuel B f1 f2 _ ?_ ?_) <;>
      simp only [List.length_drop] <;>
      simp only [List.length_cons] at h1 h2 <;> omega

theorem chunksGo_nil (B : Nat) : chunksGo B ([] : List α) = [] := rfl

theorem chunksGo_cons (B : Nat) (a : α) (l : List α) :
    chunksGo B (a :: l) = (a :: l.take (B - 1)) :: chunksGo B (l.drop (B - 1)) := by
  simp only [chunksGo, List.length_cons, chunksGoF]
  refine congrArg _ (chunksGoF_fuel B l.length (l.drop (B - 1)).length _ ?_ ?_) <;>
    simp only [List.length_drop] <;> omega

theorem chunksGo_flatten (B : Nat) (l : List α) : (chunksGo B l).flatten = l := by
  suffices h : ∀ (n : Nat) (l : List α), l.length ≤ n → (chunksGo B l).flatten = l from
    h l.length l (Nat.le_refl _)
  intro n
  induction n with
  | zero =>
    intro l hl
    cases l with
    | nil => rfl
    | cons a t => simp at hl
  | succ n ih =>
    intro l hl
    cases l with
    | nil => rfl
    | cons a t =>
      rw [chunksGo_cons, List.flatten_cons,
        ih (t.drop (B - 1)) (by simp only [List.length_drop]; simp only [List.length_cons] at hl; omega),
        List.cons_append, List.take_append_drop]

theorem chunksGo_length (B : Nat) (hB : 1 ≤ B) (l : List α) :
    (chunksGo B l).length = (l.length + B - 1) / B := by
  suffices h : ∀ (n : Nat) (l : List α), l.length ≤ n →
      (chunksGo B l).length = (l.length + B - 1) / B from
    h l.length l (Nat.le_refl _)
  intro n
  induction n with
  | zero =>
    intro l hl
    cases l with
    | nil => simp [chunksGo_nil, Nat.div_eq_of_lt (show B - 1 < B by omega)]
    | cons a t => simp at hl
  | succ n ih =>
    intro l hl
    cases l with
    | nil => simp [chunksGo_nil, Nat.div_eq_of_lt (show B - 1 < B by omega)]
    | cons a t =>
      rw [chunksGo_cons]
      simp only [List.length_cons]
      rw [ih (t.drop (B - 1)) (by simp only [List.length_drop]; simp only [List.length_cons] at hl; omega),
        List.length_drop]
      rcases le_or_lt (B - 1) t.length with h | h
      · have h1 : t.length - (B - 1) + B - 1 = t.length := by omega
        rw [h1, show t.length + 1 + B - 1 = t.length + B by omega,
            Nat.add_div_right _ (show 0 < B by omega)]
      · have h1 : t.length - (B - 1) = 0 := by omega
        rw [h1, show 0 + B - 1 = B - 1 by omega,
            Nat.div_eq_of_lt (show B - 1 < B by omega),
            show t.length + 1 + B - 1 = t.length + B by omega,
            Nat.add_div_right _ (show 0 < B by omega),
            Nat.div_eq_of_lt (show t.length < B by omega)]

theorem chunksGo_mem_length (B : Nat) (hB : 1 ≤ B) (l c : List α)
    (hc : c ∈ chunksGo B l) : c.length ≤ B := by
  suffices h : ∀ (n : Nat) (l c : List α), l.length ≤ n → c ∈ chunksGo B l →
      c.length ≤ B from h l.length l c (Nat.le_refl _) hc
  clear hc
  intro n
  induction n with
  | zero =>
    intro l c hl hc
    cases l with
    | nil => simp [chunksGo_nil] at hc
    | cons a t => simp at hl
  | succ n ih =>
    intro l c hl hc
    cases l with
    | nil => simp [chunksGo_nil] at hc
    | cons a t =>
      rw [chunksGo_cons] at hc
      rcases List.mem_cons.1 hc with h3 | hc
      · rw [h3]
        simp only [List.length_cons, List.length_take]
        omega
      · exact ih (t.drop (B - 1)) c
          (by simp only [List.length_drop]; simp only [List.length_cons] at hl; omega) hc

/-! ## Lemmas about the Converter pipeline -/

theorem keyLe_total (x y : NumberedFile) (h : keyLe x y = false) : keyLe y x = true := by
  simp only [keyLe, decide_eq_false_iff_not, not_le] at h
  simp only [keyLe, decide_eq_true_eq]
  omega

theorem keyLe_trans (x y z : NumberedFile) (h1 : keyLe x y = true)
    (h2 : keyLe y z = true) : keyLe x z = true := by
  simp only [keyLe, decide_eq_true_eq] at h1 h2 ⊢
  omega

/-- Every tuple of the sorted `numbered_files` list carries the file number
that `extract_data_from_filename` computes from its own filename and index. -/
theorem mem_sortedNumbered_key (names : List (List Char)) :
    ∀ x ∈ sortedNumbered names,
      x.1 = (extract_data_from_filename x.2.1 (some x.2.2)).1 := by
  intro x hx
  have hx2 : x ∈ numberedFiles names := (sortLe_perm keyLe _).mem_iff.1 hx
  simp only [numberedFiles, List.mem_map] at hx2
  obtain ⟨p, _, rfl⟩ := hx2
  rfl

theorem readOne_ep {rd : List Char → Except PyErr (List Char)} {x : NumberedFile}
    {r : FileRecord} (h : readOne rd x = some r) :
    r.episode_number = (extract_data_from_filename x.2.1 (some x.2.2)).1 := by
  unfold readOne at h
  cases hr : rd x.2.1 with
  | ok t => rw [hr] at h; cases h; rfl
  | error e => rw [hr] at h; cases h

/-- `all_files` is sorted by episode number, ascending. -/
theorem allFilesOf_pairwise (rd : List Char → Except PyErr (List Char))
    (names : List (List Char)) :
    (allFilesOf rd names).Pairwise
      (fun r s => r.episode_number ≤ s.episode_number) := by
  have h0 : (sortedNumbered names).Pairwise (fun x y => keyLe x y = true) :=
    pairwise_sortLe keyLe_total keyLe_trans (numberedFiles names)
  have h1 : (sortedNumbered names).Pairwise
      (fun x y => (extract_data_from_filename x.2.1 (some x.2.2)).1 ≤
        (extract_data_from_filename y.2.1 (some y.2.2)).1) := by
    refine h0.imp_of_mem ?_
    intro x y hx hy hxy
    rw [← mem_sortedNumbered_key names x hx, ← mem_sortedNumbered_key names y hy]
    exact of_decide_eq_true hxy
  refine List.Pairwise.filterMap (readOne rd) ?_ h1
  intro x y hxy r hr s hs
  rw [readOne_ep (Option.mem_def.1 hr), readOne_ep (Option.mem_def.1 hs)]
  exact hxy

/-- `all_files` holds exactly the successfully read records: it is a
permutation of the per-file read results taken in original listing order. -/
theorem allFilesOf_perm (rd : List Char → Except PyErr (List Char))
    (names : List (List Char)) :
    List.Perm (allFilesOf rd names)
      ((numberedFiles names).filterMap (readOne rd)) :=
  (sortLe_perm keyLe (numberedFiles names)).filterMap (readOne rd)

/-- Claim C1 (confirmed): when every batch write succeeds, for the `N`
successfully-read records and any batch size `B ≥ 1`, `process_files` writes
exactly `⌈N/B⌉ = (N + B - 1) / B` batch files, numbered sequentially from 1,
each holding at most `B` records; concatenating the batch contents in
sequence order yields exactly `all_files`, which is the list of successfully
read records sorted by `episode_number` ascending. -/
theorem C1_chunking_law (env : ConvEnv) (names : List (List Char)) (B : Nat)
    (hls : env.listing = some names) (hw : ∀ k, env.writeOk k = true)
    (hB : 1 ≤ B) :
    ∃ r, process_files env B = .ok r ∧
      r.written.length = ((allFilesOf env.readFile names).length + B - 1) / B ∧
      (∀ p ∈ r.written, p.2.length ≤ B) ∧
      r.written.map Prod.fst = List.range' 1 r.written.length ∧
      (r.written.map Prod.snd).flatten = allFilesOf env.readFile names ∧
      (allFilesOf env.readFile names).Pairwise
        (fun r1 r2 => r1.episode_number ≤ r2.episode_number) ∧
      List.Perm (allFilesOf env.readFile names)
        ((numberedFiles names).filterMap (readOne env.readFile)) := by
  have hBne : ¬ B = 0 := by omega
  set af := allFilesOf env.readFile names with haf
  have hpf : process_files env B =
      .ok ⟨(List.enumFrom 1 (chunksGo B af)).filter (fun p => env.writeOk p.1),
           (chunksGo B af).length, af.length, errorCountOf env.readFile names⟩ := by
    simp only [process_files, hls, pyChunks, hBne, if_neg, not_false_iff]
  have hfil : (List.enumFrom 1 (chunksGo B af)).filter (fun p => env.writeOk p.1) =
      List.enumFrom 1 (chunksGo B af) :=
    List.filter_eq_self.mpr (fun a _ => hw a.1)
  refine ⟨_, hpf, ?_, ?_, ?_, ?_, allFilesOf_pairwise _ _, allFilesOf_perm _ _⟩
  · simp only [hfil, List.enumFrom_length]
    exact chunksGo_length B hB af
  · intro p hp
    rw [hfil] at hp
    have hsnd : p.2 ∈ chunksGo B af := by
      have := List.mem_map_of_mem Prod.snd hp
      rwa [List.enumFrom_map_snd] at this
    exact chunksGo_mem_length B hB af p.2 hsnd
  · simp only [hfil, List.enumFrom_map_fst, List.enumFrom_length]
  · simp only [hfil, List.enumFrom_map_snd]
    exact chunksGo_flatten B af

/-- Witness for C1: two one-record batches from a concrete two-file directory. -/
theorem C1_chunking_law_witness :
    (ConvEnv.mk (some [(['2', '-', 'b', '.', 't', 'x', 't']),
        (['1', '-', 'a', '.', 't', 'x', 't'])])
      (fun fn => .ok fn) (fun _ => true)).listing =
        some [(['2', '-', 'b', '.', 't', 'x', 't']),
          (['1', '-', 'a', '.', 't', 'x', 't'])] ∧
    (∀ k, (fun (_ : Nat) => true) k = true) ∧ 1 ≤ 1 ∧
    (∃ r, process_files (ConvEnv.mk (some [(['2', '-', 'b', '.', 't', 'x', 't']),
        (['1', '-', 'a', '.', 't', 'x', 't'])])
        (fun fn => .ok fn) (fun _ => true)) 1 = .ok r ∧
      r.written.length =
        ((allFilesOf (fun fn => .ok fn) [(['2', '-', 'b', '.', 't', 'x', 't']),
          (['1', '-', 'a', '.', 't', 'x', 't'])]).length + 1 - 1) / 1 ∧
      (∀ p ∈ r.written, p.2.length ≤ 1) ∧
      r.written.map Prod.fst = List.range' 1 r.written.length ∧
      (r.written.map Prod.snd).flatten =
        allFilesOf (fun fn => .ok fn) [(['2', '-', 'b', '.', 't', 'x', 't']),
          (['1', '-', 'a', '.', 't', 'x', 't'])] ∧
      (allFilesOf (fun fn => .ok fn) [(['2', '-', 'b', '.', 't', 'x', 't']),
          (['1', '-', 'a', '.', 't', 'x', 't'])]).Pairwise
        (fun r1 r2 => r1.episode_number ≤ r2.episode_number) ∧
      List.Perm (allFilesOf (fun fn => .ok fn)
          [(['2', '-', 'b', '.', 't', 'x', 't']),
            (['1', '-', 'a', '.', 't', 'x', 't'])])
        ((numberedFiles [(['2', '-', 'b', '.', 't', 'x', 't']),
            (['1', '-', 'a', '.', 't', 'x', 't'])]).filterMap
          (readOne (fun fn => .ok fn)))) :=
  ⟨rfl, fun _ => rfl, Nat.le_refl 1,
    C1_chunking_law _ _ 1 rfl (fun _ => rfl) (Nat.le_refl 1)⟩

/-- The computed shape of a successful `process_files` run on an existing
input directory with a positive batch size. -/
theorem process_files_ok (env : ConvEnv) (names : List (List Char)) (B : Nat)
    (hls : env.listing = some names) (hB : 1 ≤ B) :
    process_files env B = .ok
      ⟨(List.enumFrom 1 (chunksGo B (allFilesOf env.readFile names))).filter
          (fun p => env.writeOk p.1),
        (chunksGo B (allFilesOf env.readFile names)).length,
        (allFilesOf env.readFile names).length,
        errorCountOf env.readFile names⟩ := by
  have hBne : ¬ B = 0 := by omega
  simp only [process_files, hls, pyChunks, hBne, if_neg, not_false_iff]

/-- Decidable equality of `Except` results (for concrete evaluations). -/
instance [DecidableEq e] [DecidableEq a] : DecidableEq (Except e a) := fun x y =>
  match x, y with
  | .ok u, .ok v => decidable_of_iff (u = v) (by simp)
  | .error u, .error v => decidable_of_iff (u = v) (by simp)
  | .ok _, .error _ => .isFalse (by simp)
  | .error _, .ok _ => .isFalse (by simp)

/-- A directory whose single `.txt` file reads fine but whose batch write
fails: the write attempt raises, no file reaches the output directory, yet
`batch_count` was already incremented. -/
def cEnvC6 : ConvEnv :=
  ⟨some [(['1', '.', 't', 'x', 't'])], fun _ => .ok [], fun _ => false⟩

/-- Claim C6 counterexample: on `cEnvC6` with batch size 1, `process_files`
returns 1 although zero batch files were actually written (the single write
failed), so the return value is not the number of files written. -/
theorem C6_counterexample :
    process_files cEnvC6 1 =
      .ok ⟨[], 1, 1, 0⟩ ∧ (1 : Nat) ≠ 0 := by
  refine ⟨?_, by decide⟩
  decide

/-- Claim C6 (corrected): `process_files` returns the number of batch chunks
attempted, `⌈N/B⌉`; this equals the number of batch files actually written
when every write succeeds, and it is 0 when the input directory is missing
(for any batch size) or contains no `.txt` files (for a positive batch size). -/
theorem C6_return_value (env : ConvEnv) (names : List (List Char)) (B : Nat) :
    (env.listing = none → process_files env B = .ok ⟨[], 0, 0, 0⟩) ∧
    (env.listing = some names → 1 ≤ B → txtNames names = [] →
      process_files env B = .ok ⟨[], 0, 0, 0⟩) ∧
    (env.listing = some names → 1 ≤ B → ∀ r, process_files env B = .ok r →
      r.returnValue = ((allFilesOf env.readFile names).length + B - 1) / B ∧
      ((∀ k, env.writeOk k = true) → r.returnValue = r.written.length)) := by
  refine ⟨fun h => ?_, fun hls hB htxt => ?_, fun hls hB r hr => ?_⟩
  · simp only [process_files, h]
  · have haf : allFilesOf env.readFile names = [] := by
      simp [allFilesOf, sortedNumbered, numberedFiles, htxt, sortLe]
    have herr : errorCountOf env.readFile names = 0 := by
      simp [errorCountOf, sortedNumbered, numberedFiles, htxt, sortLe]
    rw [process_files_ok env names B hls hB, haf, herr]
    simp [chunksGo, chunksGoF]
  · rw [process_files_ok env names B hls hB] at hr
    cases hr
    constructor
    · exact chunksGo_length B hB _
    · intro hw
      rw [List.filter_eq_self.mpr (fun a _ => hw a.1), List.enumFrom_length]

/-- Witness for the corrected C6: a missing input directory returns 0, and
on `C1`'s two-file directory the return value matches the files written. -/
theorem C6_return_value_witness :
    ((ConvEnv.mk none (fun _ => .ok []) (fun _ => true)).listing = none ∧
      process_files (ConvEnv.mk none (fun _ => .ok []) (fun _ => true)) 3 =
        .ok ⟨[], 0, 0, 0⟩) ∧
    ((ConvEnv.mk (some [(['x', '.', 'm', 'd'])]) (fun _ => .ok [])
        (fun _ => true)).listing = some [(['x', '.', 'm', 'd'])] ∧ 1 ≤ 2 ∧
      txtNames [(['x', '.', 'm', 'd'])] = [] ∧
      process_files (ConvEnv.mk (some [(['x', '.', 'm', 'd'])])
        (fun _ => .ok []) (fun _ => true)) 2 = .ok ⟨[], 0, 0, 0⟩) := by
  refine ⟨⟨rfl, (C6_return_value _ [] 3).1 rfl⟩, ⟨rfl, by decide, by decide, ?_⟩⟩
  exact (C6_return_value _ [(['x', '.', 'm', 'd'])] 2).2.1 rfl (by decide) (by decide)

/-- Claim C9 (confirmed): with an existing input directory holding at least
one readable `.txt` file, `process_files` with batch size 0 raises the
uncaught `ValueError` from `range(0, n, 0)` and the run aborts; with any
batch size `B ≥ 1` the chunking loop is well defined and the run completes. -/
theorem C9_zero_batch_size (env : ConvEnv) (names : List (List Char))
    (hls : env.listing = some names)
    (_hreadable : ∃ fn ∈ txtNames names, (env.readFile fn).isOk = true) :
    process_files env 0 = .error .valueError ∧
    ∀ B, 1 ≤ B → ∃ r, process_files env B = .ok r := by
  constructor
  · simp only [process_files, hls, pyChunks, if_pos]
  · intro B hB
    exact ⟨_, process_files_ok env names B hls hB⟩

/-- Witness for C9: a directory with one readable `.txt` file. -/
theorem C9_zero_batch_size_witness :
    (ConvEnv.mk (some [(['1', '.', 't', 'x', 't'])]) (fun _ => .ok [])
        (fun _ => true)).listing = some [(['1', '.', 't', 'x', 't'])] ∧
    (∃ fn ∈ txtNames [(['1', '.', 't', 'x', 't'])],
      ((fun (_ : List Char) => (Except.ok [] : Except PyErr (List Char))) fn).isOk
        = true) ∧
    (process_files (ConvEnv.mk (some [(['1', '.', 't', 'x', 't'])])
        (fun _ => .ok []) (fun _ => true)) 0 = .error .valueError ∧
      ∀ B, 1 ≤ B → ∃ r, process_files (ConvEnv.mk (some [(['1', '.', 't', 'x', 't'])])
        (fun _ => .ok []) (fun _ => true)) B = .ok r) := by
  refine ⟨rfl, by decide, C9_zero_batch_size _ _ rfl (by decide)⟩

/-! ## Filename-parsing claims -/

theorem takeWhile_digits_append (rest : List Char) :
    ∀ ds : List Char, (∀ c ∈ ds, c.isDigit = true) →
      (ds ++ '-' :: rest).takeWhile (fun c => c.isDigit) = ds
  | [], _ => by simp [List.takeWhile]
  | c :: ds, h => by
    have hc : c.isDigit = true := h c (List.mem_cons_self c ds)
    simp only [List.cons_append, List.takeWhile_cons, hc, if_pos]
    exact congrArg _ (takeWhile_digits_append rest ds
      (fun x hx => h x (List.mem_cons_of_mem c hx)))

/-- Claim C7 (confirmed): for a filename that begins with one or more digits
immediately followed by a hyphen, `extract_data_from_filename` returns the
integer value of that leading digit run as the episode number, whatever
fallback index is supplied. -/
theorem C7_leading_digit_run (ds rest : List Char) (idx : Option Nat)
    (hne : ds ≠ []) (hdig : ∀ c ∈ ds, c.isDigit = true) :
    (extract_data_from_filename (ds ++ '-' :: rest) idx).1 = natOfDigits ds := by
  have htw : (ds ++ '-' :: rest).takeWhile (fun c => c.isDigit) = ds :=
    takeWhile_digits_append rest ds hdig
  have hdl : (ds ++ '-' :: rest).drop ds.length = '-' :: rest :=
    List.drop_left ds ('-' :: rest)
  have hm : matchLeadingNumber (ds ++ '-' :: rest) = some (natOfDigits ds) := by
    unfold matchLeadingNumber
    simp only [htw, hdl, List.isEmpty_iff, hne, if_neg, not_false_iff]
  simp only [extract_data_from_filename, hm]

/-- Witness for C7: `"12-x.txt"` parses to episode 12 under fallback index 7. -/
theorem C7_leading_digit_run_witness :
    (['1', '2'] : List Char) ≠ [] ∧
    (∀ c ∈ (['1', '2'] : List Char), c.isDigit = true) ∧
    (extract_data_from_filename (['1', '2'] ++ '-' :: ['x', '.', 't', 'x', 't'])
      (some 7)).1 = natOfDigits ['1', '2'] :=
  ⟨by decide, by decide,
    C7_leading_digit_run ['1', '2'] ['x', '.', 't', 'x', 't'] (some 7)
      (by decide) (by decide)⟩

/-- Claim C10 (confirmed): when the suffix-stripped form of a filename does
not match the `<digits>-#<digits> - <rest>` pattern, the returned title is
the filename with its last four characters removed — whatever those
characters are; in particular a filename of at most four characters yields
the empty title. -/
theorem C10_title_last_four (fn : List Char) (idx : Option Nat) :
    (matchTitlePattern (stripLast4 fn) = none →
      (extract_data_from_filename fn idx).2 = stripLast4 fn) ∧
    (fn.length ≤ 4 → (extract_data_from_filename fn idx).2 = []) := by
  constructor
  · intro h
    simp only [extract_data_from_filename, h]
  · intro h
    have h4 : stripLast4 fn = [] := by
      simp only [stripLast4, List.take_eq_nil_iff]
      omega
    simp only [extract_data_from_filename, h4]
    rfl

/-- Witness for C10: `"a.html"` gets the truncated title `"a."`, not the
extension-stripped `"a"`; and the four-character name `".txt"` gets the
empty title. -/
theorem C10_title_last_four_witness :
    (matchTitlePattern (stripLast4 ['a', '.', 'h', 't', 'm', 'l']) = none ∧
      (extract_data_from_filename ['a', '.', 'h', 't', 'm', 'l'] (some 3)).2 =
        stripLast4 ['a', '.', 'h', 't', 'm', 'l']) ∧
    ((['.', 't', 'x', 't'] : List Char).length ≤ 4 ∧
      (extract_data_from_filename ['.', 't', 'x', 't'] none).2 = []) :=
  ⟨⟨by decide, (C10_title_last_four ['a', '.', 'h', 't', 'm', 'l'] (some 3)).1 (by decide)⟩,
    ⟨by decide, (C10_title_last_four ['.', 't', 'x', 't'] none).2 (by decide)⟩⟩

/-! ## The round trip between the Converter and the Verifier -/

/-- The JSON object `json.dump` writes for one record (txt_to_batches.py
lines 60-67), fields in dict insertion order. -/
def recordToJObj (r : FileRecord) : JObj :=
  [(epKey, .jint (r.episode_number : Int)), (titleKey, .jstr r.title),
   ("transcript".toList, .jstr r.transcript), (fnKey, .jstr r.filename)]

theorem extractEntry_recordToJObj (r : FileRecord) :
    extractEntry (recordToJObj r) =
      some (JValue.jint (r.episode_number : Int), JValue.jstr r.title,
        JValue.jstr r.filename) := by
  rfl

theorem validEntries_encode (rs : List FileRecord) :
    validEntries (rs.map recordToJObj) =
      rs.map (fun rec => (JValue.jint (rec.episode_number : Int),
        JValue.jstr rec.title, JValue.jstr rec.filename)) := by
  induction rs with
  | nil => rfl
  | cons r rs ih =>
    simp only [List.map_cons, validEntries, extractEntry_recordToJObj, ih]

/-- Claim C8 (confirmed): every record `process_files` wrote into a batch
file comes back from the Verifier's aggregation step as a triple with the
identical `episode_number`, `title` and `filename`: extracting the entries
of the written batch's JSON value yields exactly those triples, in order
(the episode number as the JSON integer carrying the written value). -/
theorem C8_round_trip (env : ConvEnv) (B : Nat) (r : ConvResult)
    (_h : process_files env B = .ok r) :
    ∀ p ∈ r.written,
      validEntries (p.2.map recordToJObj) =
        p.2.map (fun rec => (JValue.jint (rec.episode_number : Int),
          JValue.jstr rec.title, JValue.jstr rec.filename)) :=
  fun p _ => validEntries_encode p.2

/-- The one-file directory used to witness C8, and its computed result. -/
def cEnvC8 : ConvEnv :=
  ⟨some [(['1', '-', 'a', '.', 't', 'x', 't'])], fun _ => .ok [], fun _ => true⟩

def cResC8 : ConvResult :=
  ⟨[(1, [⟨1, (['1', '-', 'a']), [], (['1', '-', 'a', '.', 't', 'x', 't'])⟩])], 1, 1, 0⟩

/-- Witness for C8: the concrete one-record batch written from `cEnvC8`
round-trips to the same three fields. -/
theorem C8_round_trip_witness :
    process_files cEnvC8 1 = .ok cResC8 ∧
    ∀ p ∈ cResC8.written,
      validEntries (p.2.map recordToJObj) =
        p.2.map (fun rec => (JValue.jint (rec.episode_number : Int),
          JValue.jstr rec.title, JValue.jstr rec.filename)) :=
  ⟨by decide, C8_round_trip cEnvC8 1 cResC8 (by decide)⟩

/-! ## Lemmas about the Verifier pipeline -/

theorem entryLe_total (x y : VEntry) (h : entryLe x y = false) : entryLe y x = true := by
  simp only [entryLe, decide_eq_false_iff_not, not_le] at h
  simp only [entryLe, decide_eq_true_eq]
  omega

theorem entryLe_trans (x y z : VEntry) (h1 : entryLe x y = true)
    (h2 : entryLe y z = true) : entryLe x z = true := by
  simp only [entryLe, decide_eq_true_eq] at h1 h2 ⊢
  omega

theorem mem_firstOccs (k : Int) (l : List Int) : k ∈ firstOccs l ↔ k ∈ l := by
  induction l with
  | nil => simp [firstOccs]
  | cons n ns ih =>
    simp only [firstOccs, List.mem_cons, List.mem_filter, ih, decide_eq_true_eq]
    by_cases hk : k = n
    · simp [hk]
    · simp [hk]

theorem nodup_firstOccs (l : List Int) : (firstOccs l).Nodup := by
  induction l with
  | nil => simp [firstOccs]
  | cons n ns ih =>
    simp only [firstOccs, List.nodup_cons]
    refine ⟨fun hmem => ?_, ih.filter _⟩
    have := (List.mem_filter.1 hmem).2
    simp at this

theorem firstOccs_sublist (l : List Int) : List.Sublist (firstOccs l) l := by
  induction l with
  | nil => simp [firstOccs]
  | cons n ns ih =>
    exact List.Sublist.cons₂ n (List.Sublist.trans (List.filter_sublist _) ih)

theorem mem_dupKeys (l : List Int) (k : Int) : k ∈ dupKeys l ↔ 1 < l.count k := by
  simp only [dupKeys, List.mem_filter, mem_firstOccs, decide_eq_true_eq]
  constructor
  · exact fun h => h.2
  · intro h
    exact ⟨List.count_pos_iff.1 (by omega), h⟩

theorem nodup_dupKeys (l : List Int) : (dupKeys l).Nodup :=
  (nodup_firstOccs l).filter _

theorem dupKeys_sublist (l : List Int) : List.Sublist (dupKeys l) l :=
  List.Sublist.trans (List.filter_sublist _) (firstOccs_sublist l)

theorem foldl_min_le (ns : List Int) :
    ∀ (n : Int), ∀ k ∈ n :: ns, List.foldl min n ns ≤ k := by
  induction ns with
  | nil =>
    intro n k hk
    rcases List.mem_cons.1 hk with h | h
    · simp [h]
    · simp at h
  | cons m ns ih =>
    intro n k hk
    simp only [List.foldl_cons]
    have hhead : List.foldl min (min n m) ns ≤ min n m :=
      ih (min n m) (min n m) (List.mem_cons_self _ _)
    rcases List.mem_cons.1 hk with h | h
    · rw [h]
      exact le_trans hhead (min_le_left n m)
    · rcases List.mem_cons.1 h with h2 | h2
      · rw [h2]
        exact le_trans hhead (min_le_right n m)
      · exact ih (min n m) k (List.mem_cons_of_mem _ h2)

theorem foldl_min_mem (ns : List Int) :
    ∀ (n : Int), List.foldl min n ns ∈ n :: ns := by
  induction ns with
  | nil => intro n; simp
  | cons m ns ih =>
    intro n
    simp only [List.foldl_cons]
    have := ih (min n m)
    rcases List.mem_cons.1 this with h | h
    · rcases min_choice n m with h2 | h2 <;> rw [h, h2]
      · exact List.mem_cons_self _ _
      · exact List.mem_cons_of_mem _ (List.mem_cons_self _ _)
    · exact List.mem_cons_of_mem _ (List.mem_cons_of_mem _ h)

theorem foldl_max_le (ns : List Int) :
    ∀ (n : Int), ∀ k ∈ n :: ns, k ≤ List.foldl max n ns := by
  induction ns with
  | nil =>
    intro n k hk
    rcases List.mem_cons.1 hk with h | h
    · simp [h]
    · simp at h
  | cons m ns ih =>
    intro n k hk
    simp only [List.foldl_cons]
    have hhead : max n m ≤ List.foldl max (max n m) ns :=
      ih (max n m) (max n m) (List.mem_cons_self _ _)
    rcases List.mem_cons.1 hk with h | h
    · rw [h]
      exact le_trans (le_max_left n m) hhead
    · rcases List.mem_cons.1 h with h2 | h2
      · rw [h2]
        exact le_trans (le_max_right n m) hhead
      · exact ih (max n m) k (List.mem_cons_of_mem _ h2)

theorem foldl_max_mem (ns : List Int) :
    ∀ (n : Int), List.foldl max n ns ∈ n :: ns := by
  induction ns with
  | nil => intro n; simp
  | cons m ns ih =>
    intro n
    simp only [List.foldl_cons]
    have := ih (max n m)
    rcases List.mem_cons.1 this with h | h
    · rcases max_choice n m with h2 | h2 <;> rw [h, h2]
      · exact List.mem_cons_self _ _
      · exact List.mem_cons_of_mem _ (List.mem_cons_self _ _)
    · exact List.mem_cons_of_mem _ (List.mem_cons_of_mem _ h)

/-- A run on an existing directory with at least one `.json` file always gets
past the whole aggregation loop and into the analysis of the aggregated
entries (whether that analysis completes or raises). -/
theorem verify_batches_run (env : VerifyEnv)
    (listing : List (List Char × Except PyErr (List JObj)))
    (hls : env.listing = some listing)
    (hne : listing.filter (fun p => isJsonName p.1) ≠ []) :
    verify_batches env = analyzeFiles (aggFrom listing) := by
  have h2 : (batchFilesOf listing).isEmpty = false := by
    cases h : batchFilesOf listing with
    | nil =>
      exfalso
      apply hne
      have hp := sortLe_perm (fun a b => lexLe a.1 b.1)
        (listing.filter (fun p => isJsonName p.1))
      rw [batchFilesOf] at h
      rw [h] at hp
      exact (hp.symm).eq_nil
    | cons a t => rfl
  simp only [verify_batches, hls, h2, Bool.false_eq_true, if_neg, not_false_iff]

/-- A complete record with episode number 5. -/
def cObjFull : JObj := [(epKey, .jint 5), (titleKey, .jstr []), (fnKey, .jstr [])]

/-- A record missing the `title` key: extracting it raises `KeyError`. -/
def cObjNoTitle : JObj := [(epKey, .jint 6)]

/-- A directory with one batch file whose second record is malformed. -/
def cEnvC3 : VerifyEnv := ⟨some [("b.json".toList, .ok [cObjFull, cObjNoTitle])]⟩

/-- Claim C3 counterexample: the single batch file of `cEnvC3` hits a
`KeyError` on its second record, yet it contributes its first record to the
aggregation — one entry, not zero, so a file on which the verifier encounters
a parse error is not excluded from aggregation. -/
theorem C3_counterexample :
    verify_batches cEnvC3 =
      .report (mkReport [((5 : Int), JValue.jstr [], JValue.jstr [])]) ∧
    (mkReport [((5 : Int), JValue.jstr [], JValue.jstr [])]).totalFiles = 1 ∧
    (1 : Nat) ≠ 0 := by
  refine ⟨by decide, by decide, by decide⟩

theorem validEntries_takeWhile (objs : List JObj) :
    validEntries objs =
      (objs.takeWhile (fun o => (extractEntry o).isSome)).filterMap extractEntry := by
  induction objs with
  | nil => rfl
  | cons o os ih =>
    cases h : extractEntry o with
    | some e =>
      simp only [validEntries, h, List.takeWhile_cons, Option.isSome_some, if_pos,
        List.filterMap_cons, ih]
    | none =>
      simp only [validEntries, h, List.takeWhile_cons, Option.isSome_none,
        Bool.false_eq_true, if_neg, not_false_iff, List.filterMap_nil]

/-- Claim C3 (corrected): a batch file whose open or `json.load` raises
contributes no entries; a batch file whose k-th record raises `KeyError`
contributes exactly the entries of the records before it (the appends of
verify_batches.py line 37 happen inside the `try`, one record at a time).
A record fails exactly when one of the three keys is absent — a record with
all three keys present is aggregated whatever the types of its values, the
subscripts raising nothing.  The run continues with the remaining batch
files, into the analysis of the in-order concatenation of the per-file
contributions. -/
theorem C3_per_record_aggregation (env : VerifyEnv)
    (listing : List (List Char × Except PyErr (List JObj)))
    (hls : env.listing = some listing)
    (hne : listing.filter (fun p => isJsonName p.1) ≠ []) :
    verify_batches env = analyzeFiles (aggFrom listing) ∧
    aggFrom listing =
      ((batchFilesOf listing).map (fun p => fileEntries p.2)).flatten ∧
    (∀ e : PyErr, fileEntries (.error e) = []) ∧
    (∀ objs : List JObj, fileEntries (.ok objs) =
      (objs.takeWhile (fun o => (extractEntry o).isSome)).filterMap extractEntry) ∧
    (∀ objs : List JObj, (∀ o ∈ objs, (extractEntry o).isSome = true) →
      fileEntries (.ok objs) = objs.filterMap extractEntry) ∧
    (∀ o : JObj, (extractEntry o).isSome = true ↔
      ((jLookup epKey o).isSome = true ∧ (jLookup titleKey o).isSome = true ∧
        (jLookup fnKey o).isSome = true)) := by
  refine ⟨verify_batches_run env listing hls hne, rfl, fun e => rfl,
    fun objs => validEntries_takeWhile objs, fun objs h => ?_, fun o => ?_⟩
  · have h2 : objs.takeWhile (fun o => (extractEntry o).isSome) = objs :=
      List.takeWhile_eq_self_iff.2 h
    rw [fileEntries, validEntries_takeWhile, h2]
  · unfold extractEntry
    cases jLookup epKey o <;> cases jLookup titleKey o <;> cases jLookup fnKey o <;> simp

/-- Witness for the corrected C3: a directory with one unreadable batch file
and one whose second record is bad. -/
theorem C3_per_record_aggregation_witness :
    (VerifyEnv.mk (some [("a.json".toList, .error .ioError),
        ("b.json".toList, .ok [cObjFull, cObjNoTitle])])).listing =
      some [("a.json".toList, .error .ioError),
        ("b.json".toList, .ok [cObjFull, cObjNoTitle])] ∧
    [(("a.json".toList : List Char), (.error .ioError : Except PyErr (List JObj))),
      ("b.json".toList, .ok [cObjFull, cObjNoTitle])].filter
        (fun p => isJsonName p.1) ≠ [] ∧
    verify_batches (VerifyEnv.mk (some [("a.json".toList, .error .ioError),
        ("b.json".toList, .ok [cObjFull, cObjNoTitle])])) =
      analyzeFiles (aggFrom [("a.json".toList, .error .ioError),
        ("b.json".toList, .ok [cObjFull, cObjNoTitle])]) := by
  refine ⟨rfl, by decide, (C3_per_record_aggregation _ _ rfl (by decide)).1⟩

/-- The duplicated-number list in the order the claim describes: the
first-encounter order of a frequency accumulation over the *unsorted*
aggregated sequence, taken on its integer episode numbers.  (This follows
the claim's words; the code accumulates over the already-sorted `file_nums`
instead.) -/
def specDupListUnsorted (entries : List RawEntry) : List Int :=
  dupKeys (entries.filterMap (fun e =>
    match e.1 with
    | JValue.jint n => some n
    | JValue.jstr _ => none))

/-- The duplicated-number list a completed run printed, if any. -/
def dupListOf : VerifyOutcome → Option (List Int)
  | .report r => r.dupList
  | _ => none

/-- A complete record with the given episode number. -/
def cObjN (n : Int) : JObj := [(epKey, .jint n), (titleKey, .jstr []), (fnKey, .jstr [])]

/-- A directory aggregating episode numbers in the order 3, 3, 1, 1. -/
def cListC4 : List (List Char × Except PyErr (List JObj)) :=
  [("b.json".toList, .ok [cObjN 3, cObjN 3, cObjN 1, cObjN 1])]

/-- Claim C4 counterexample: aggregating entries with episode numbers in
encounter order `[3, 3, 1, 1]`, the code prints the duplicated numbers as
`[1, 3]` — the frequency accumulation runs over the *sorted* `file_nums`
(verify_batches.py sorts at line 50, before line 52) — while the claim's
first-encounter order over the unsorted aggregation would be `[3, 1]`. -/
theorem C4_counterexample :
    dupListOf (verify_batches ⟨some cListC4⟩) = some [1, 3] ∧
    specDupListUnsorted (aggFrom cListC4) = [3, 1] ∧
    some ([1, 3] : List Int) ≠ some [3, 1] := by
  refine ⟨by decide, by decide, by decide⟩

/-- Claim C4 (corrected): the verifier reports the duplicate count as raw
entries minus distinct episode numbers, and when positive lists exactly the
numbers with frequency above one — but in first-encounter order of the
frequency accumulation over the *sorted* sequence, i.e. ascending order,
not the unsorted first-encounter order. -/
theorem C4_duplicate_detection (files : List VEntry) :
    (mkReport files).dupCount =
      files.length - (firstOccs (fileNums files)).length ∧
    (firstOccs (fileNums files)).Nodup ∧
    (∀ k, k ∈ firstOccs (fileNums files) ↔ k ∈ fileNums files) ∧
    (fileNums files).length = files.length ∧
    (∀ k, (fileNums files).count k = (files.map (fun e => e.1)).count k) ∧
    (mkReport files).dupList =
      (if 0 < (mkReport files).dupCount then some (dupKeys (fileNums files))
        else none) ∧
    (∀ k, k ∈ dupKeys (fileNums files) ↔
      1 < (files.map (fun e => e.1)).count k) ∧
    (dupKeys (fileNums files)).Nodup ∧
    (dupKeys (fileNums files)).Pairwise (fun a b => a ≤ b) := by
  have hperm : List.Perm (fileNums files) (files.map (fun e => e.1)) :=
    (sortLe_perm entryLe files).map (fun e : VEntry => e.1)
  have hcount : ∀ k : Int,
      (fileNums files).count k = (files.map (fun e => e.1)).count k :=
    fun k => hperm.count_eq k
  have hsorted : (fileNums files).Pairwise (fun a b => a ≤ b) := by
    have h0 := pairwise_sortLe entryLe_total entryLe_trans files
    have h1 : (sortLe entryLe files).Pairwise (fun x y => x.1 ≤ y.1) :=
      h0.imp (fun h => by
        simpa only [entryLe, decide_eq_true_eq] using h)
    exact h1.map _ (fun a b h => h)
  refine ⟨rfl, nodup_firstOccs _, fun k => mem_firstOccs k _, ?_, hcount, rfl,
    fun k => ?_, nodup_dupKeys _, (hsorted.sublist (dupKeys_sublist _))⟩
  · rw [fileNums, List.length_map]
    exact (sortLe_perm entryLe files).length_eq
  · rw [mem_dupKeys, hcount k]

/-- What `gapOf` reports on a non-empty list of numbers: its `lo` and `hi`
are the minimum and maximum, `missing` is exactly the ascending duplicate-free
list of range members absent from the input, empty exactly on full coverage,
and the explicit list is printed iff non-empty with fewer than 50 elements. -/
theorem gapOf_cons_spec (n : Int) (ns : List Int) :
    ∃ g, gapOf (n :: ns) = some g ∧
      g.lo ∈ n :: ns ∧ (∀ k ∈ n :: ns, g.lo ≤ k) ∧
      g.hi ∈ n :: ns ∧ (∀ k ∈ n :: ns, k ≤ g.hi) ∧
      (∀ k, k ∈ g.missing ↔ g.lo ≤ k ∧ k ≤ g.hi ∧ k ∉ n :: ns) ∧
      g.missing.Pairwise (fun a b => a < b) ∧
      (g.missing = [] ↔ ∀ k, g.lo ≤ k → k ≤ g.hi → k ∈ n :: ns) ∧
      g.printedMissing =
        (if g.missing ≠ [] ∧ g.missing.length < 50 then some g.missing
          else none) := by
  refine ⟨⟨ns.foldl min n, ns.foldl max n,
    ((List.range (ns.foldl max n + 1 - ns.foldl min n).toNat).map
      (fun i : Nat => ns.foldl min n + (i : Int))).filter
        (fun k => decide (k ∉ n :: ns)), _⟩,
    rfl, foldl_min_mem ns n, foldl_min_le ns n, foldl_max_mem ns n,
    foldl_max_le ns n, ?_, ?_, ?_, rfl⟩
  · dsimp only
    intro k
    rw [List.mem_filter]
    simp only [List.mem_map, List.mem_range, decide_eq_true_eq]
    constructor
    · rintro ⟨⟨i, hi1, rfl⟩, h2⟩
      refine ⟨by omega, by omega, h2⟩
    · rintro ⟨h1, h2, h3⟩
      exact ⟨⟨(ns.foldl max n + 1 - ns.foldl min n).toNat - 1 -
        ((ns.foldl max n - k).toNat), by omega, by omega⟩, h3⟩
  · dsimp only
    have h1 : (List.range (ns.foldl max n + 1 - ns.foldl min n).toNat).Pairwise
        (fun a b => a < b) := List.pairwise_lt_range _
    have h2 : ((List.range (ns.foldl max n + 1 - ns.foldl min n).toNat).map
        (fun i : Nat => ns.foldl min n + (i : Int))).Pairwise (fun a b => a < b) :=
      h1.map _ (fun a b (h : a < b) => by omega)
    exact h2.filter _
  · dsimp only
    constructor
    · intro h k hk1 hk2
      by_contra hmemk
      have hmm : k ∈ ((List.range (ns.foldl max n + 1 -
          ns.foldl min n).toNat).map (fun i : Nat => ns.foldl min n + (i : Int))).filter
            (fun k => decide (k ∉ n :: ns)) := by
        rw [List.mem_filter]
        simp only [List.mem_map, List.mem_range, decide_eq_true_eq]
        exact ⟨⟨(ns.foldl max n + 1 - ns.foldl min n).toNat - 1 -
          ((ns.foldl max n - k).toNat), by omega, by omega⟩, hmemk⟩
      rw [h] at hmm
      simp at hmm
    · intro h
      refine List.eq_nil_iff_forall_not_mem.mpr (fun k hk => ?_)
      rw [List.mem_filter] at hk
      simp only [List.mem_map, List.mem_range, decide_eq_true_eq] at hk
      obtain ⟨⟨i, hi1, rfl⟩, h2⟩ := hk
      exact h2 (h _ (by omega) (by omega))

/-- Claim C5 (confirmed): for a non-empty aggregation, the verifier computes
the integers of `[min, max]` absent from the episode numbers: the `missing`
list holds exactly those integers, ascending and without repetition; it is
empty exactly when the whole range is covered (the success message), and the
explicit sorted list is printed if and only if it is non-empty with fewer
than 50 elements. -/
theorem C5_gap_detection (files : List VEntry) (hne : files ≠ []) :
    ∃ g, (mkReport files).gap = some g ∧
      g.lo ∈ fileNums files ∧ (∀ k ∈ fileNums files, g.lo ≤ k) ∧
      g.hi ∈ fileNums files ∧ (∀ k ∈ fileNums files, k ≤ g.hi) ∧
      (∀ k, k ∈ g.missing ↔ g.lo ≤ k ∧ k ≤ g.hi ∧ k ∉ fileNums files) ∧
      g.missing.Pairwise (fun a b => a < b) ∧
      (g.missing = [] ↔ ∀ k, g.lo ≤ k → k ≤ g.hi → k ∈ fileNums files) ∧
      g.printedMissing =
        (if g.missing ≠ [] ∧ g.missing.length < 50 then some g.missing
          else none) := by
  obtain ⟨n, ns, hcons⟩ : ∃ n ns, fileNums files = n :: ns := by
    cases h : fileNums files with
    | nil =>
      exfalso
      apply hne
      have h1 : (fileNums files).length = files.length := by
        rw [fileNums, List.length_map]
        exact (sortLe_perm entryLe files).length_eq
      rw [h] at h1
      exact List.length_eq_zero.1 h1.symm
    | cons n ns => exact ⟨n, ns, rfl⟩
  have hgap : (mkReport files).gap = gapOf (fileNums files) := rfl
  rw [hgap, hcons]
  exact gapOf_cons_spec n ns

/-- Witness for C5: the spec's own example — numbers 1, 2, 4, 5 give the
range 1–5 with 3 missing. -/
theorem C5_gap_detection_witness :
    ([((1 : Int), JValue.jstr [], JValue.jstr []), (2, .jstr [], .jstr []),
      (4, .jstr [], .jstr []), (5, .jstr [], .jstr [])] : List VEntry) ≠ [] ∧
    (∃ g, (mkReport [((1 : Int), JValue.jstr [], JValue.jstr []),
        (2, .jstr [], .jstr []), (4, .jstr [], .jstr []),
        (5, .jstr [], .jstr [])]).gap = some g ∧
      g.lo ∈ fileNums [((1 : Int), JValue.jstr [], JValue.jstr []),
        (2, .jstr [], .jstr []), (4, .jstr [], .jstr []),
        (5, .jstr [], .jstr [])] ∧
      (∀ k ∈ fileNums [((1 : Int), JValue.jstr [], JValue.jstr []),
        (2, .jstr [], .jstr []), (4, .jstr [], .jstr []),
        (5, .jstr [], .jstr [])], g.lo ≤ k) ∧
      g.hi ∈ fileNums [((1 : Int), JValue.jstr [], JValue.jstr []),
        (2, .jstr [], .jstr []), (4, .jstr [], .jstr []),
        (5, .jstr [], .jstr [])] ∧
      (∀ k ∈ fileNums [((1 : Int), JValue.jstr [], JValue.jstr []),
        (2, .jstr [], .jstr []), (4, .jstr [], .jstr []),
        (5, .jstr [], .jstr [])], k ≤ g.hi) ∧
      (∀ k, k ∈ g.missing ↔ g.lo ≤ k ∧ k ≤ g.hi ∧
        k ∉ fileNums [((1 : Int), JValue.jstr [], JValue.jstr []),
          (2, .jstr [], .jstr []), (4, .jstr [], .jstr []),
          (5, .jstr [], .jstr [])]) ∧
      g.missing.Pairwise (fun a b => a < b) ∧
      (g.missing = [] ↔ ∀ k, g.lo ≤ k → k ≤ g.hi →
        k ∈ fileNums [((1 : Int), JValue.jstr [], JValue.jstr []),
          (2, .jstr [], .jstr []), (4, .jstr [], .jstr []),
          (5, .jstr [], .jstr [])]) ∧
      g.printedMissing =
        (if g.missing ≠ [] ∧ g.missing.length < 50 then some g.missing
          else none)) :=
  ⟨by decide, C5_gap_detection _ (by decide)⟩
